import Mathlib

/-!
Verification of the core analytics pipeline of the agriculture dashboard in
`src/assign-2.py`: dataset provider (`load_real_data`, `generate_sample_data`),
per-field aggregation (pandas `groupby('field').agg(mean).reset_index()`),
the clustering endpoint (`clustering_data`), the outlier pass
(`detect_anomalies`), the forecaster (`forecast_yield`, `forecast_data`),
the sensor snapshot endpoint (`sensor_data`) and the dashboard endpoint
(`dashboard_data`).

Numbers are embedded as exact rationals.  Draw values of the seeded numpy
generator (MT19937 with floating-point transforms) are library internals and
are modelled by a deterministic integer mixing function; every structural
fact proved below (row counts, date window, the fixed choice sets for field
and crop type, determinism per derived seed, filter semantics, group keys,
label ranges, flag thresholds, forecast lengths) mirrors the source code and
does not depend on the particular draw values, except where a comment says
otherwise.
-/

/-- Observation: one row of the tabular dataset (one per date in the synthetic
case).  Columns as in the source: date, temperature, humidity, soil_moisture,
rainfall, crop_yield, field, crop_type, ndvi, pest_risk, disease_risk,
water_stress, equipment_hours, co2_emission.  The extra `farm` component
models the optional `farm` column a real backing file may carry (whether the
column is present at all is tracked by the frame, below). -/
structure Obs where
  date : ℕ
  temperature : ℚ
  humidity : ℚ
  soil_moisture : ℚ
  rainfall : ℚ
  crop_yield : ℚ
  field : String
  crop_type : String
  ndvi : ℚ
  pest_risk : ℚ
  disease_risk : ℚ
  water_stress : ℚ
  equipment_hours : ℚ
  co2_emission : ℚ
  farm : String
deriving DecidableEq, Repr

/-- Gregorian leap-year test. -/
def isLeap (y : ℕ) : Bool :=
  (y % 4 == 0 && y % 100 != 0) || (y % 400 == 0)

/-- Length of month `m` (1-based) of year `y`. -/
def daysInMonth (y m : ℕ) : ℕ :=
  if m == 2 then (if isLeap y then 29 else 28)
  else if m == 4 || m == 6 || m == 9 || m == 11 then 30
  else 31

/-- Days of year `y` strictly before month `m`. -/
def daysBeforeMonth (y m : ℕ) : ℕ :=
  ((List.range (m - 1)).map (fun k => daysInMonth y (k + 1))).sum

/-- Day number of the civil date `y-m-d` (proleptic Gregorian day count). -/
def rataDie (y m d : ℕ) : ℕ :=
  365 * (y - 1) + (y - 1) / 4 - (y - 1) / 100 + (y - 1) / 400 + daysBeforeMonth y m + d

/-- Number of days produced by `pd.date_range(start='2024-01-01',
end='2024-03-31', freq='D')` in the source (both endpoints inclusive). -/
def dateRangeLen : ℕ :=
  rataDie 2024 3 31 + 1 - rataDie 2024 1 1

/-- Day numbers of the synthetic date window, in order. -/
def dateRange2024 : List ℕ :=
  (List.range dateRangeLen).map (fun i => rataDie 2024 1 1 + i)

/-- Modelled: one integer draw of the seeded numpy generator.  The MT19937
stream behind `np.random.seed(s)` followed by the normal / exponential /
uniform / randint calls is floating-point library internals; it is replaced
by this deterministic mix of the seed, the row index `i` and the attribute
index `j`.  All draws are deterministic in `(seed, i, j)`, as in the source
(where the whole row block is deterministic in the seed). -/
def mix (seed i j : ℕ) : ℕ :=
  (seed * 173 + i * 101 + j * 89 + 47) % 251

/-- The four fixed field identifiers of `np.random.choice(['Field A', 'Field
B', 'Field C', 'Field D'], n)`. -/
def fieldNames : List String := ["Field A", "Field B", "Field C", "Field D"]

/-- The three fixed crop types of `np.random.choice(['Corn', 'Wheat',
'Soybeans'], n)`. -/
def cropNames : List String := ["Corn", "Wheat", "Soybeans"]

/-- Index of the field identifier drawn for row `i` (modelled draw). -/
def fieldIdx (seed i : ℕ) : ℕ := mix seed i 5 % 4

/-- Index of the crop type drawn for row `i` (modelled draw). -/
def cropIdx (seed i : ℕ) : ℕ := (mix seed i 6 + i) % 3

/-- Row `i` of the synthetic dataset built under `np.random.seed(seed)`:
dates are consecutive from 2024-01-01, the field identifier is drawn from
`fieldNames`, the crop type from `cropNames`, and each numeric attribute is
one (modelled) draw of the per-attribute distribution used in the source. -/
def synthRow (seed i : ℕ) : Obs :=
  { date := rataDie 2024 1 1 + i
    temperature := 25 + (((mix seed i 0 % 2001 : ℕ) : ℚ) - 1000) / 200
    humidity := 65 + (((mix seed i 1 % 2001 : ℕ) : ℚ) - 1000) / 100
    soil_moisture := 70 + (((mix seed i 2 % 2001 : ℕ) : ℚ) - 1000) / 50
    rainfall := ((mix seed i 3 % 2000 : ℕ) : ℚ) / 100
    crop_yield := 1200 + (((mix seed i 4 % 2001 : ℕ) : ℚ) - 1000) / 2
    field := fieldNames.getD (fieldIdx seed i) ""
    crop_type := cropNames.getD (cropIdx seed i) ""
    ndvi := 1 / 2 + ((mix seed i 7 % 400 : ℕ) : ℚ) / 1000
    pest_risk := ((mix seed i 8 % 1000 : ℕ) : ℚ) / 1000
    disease_risk := ((mix seed i 9 % 1000 : ℕ) : ℚ) / 1000
    water_stress := ((mix seed i 10 % 1000 : ℕ) : ℚ) / 1000
    equipment_hours := ((mix seed i 11 % 500 : ℕ) : ℚ)
    co2_emission := 10 + ((mix seed i 12 % 4000 : ℕ) : ℚ) / 100
    farm := "" }

/-- Synthetic dataset for a given derived seed: one row per date of the fixed
window, exactly as the `pd.DataFrame({...})` block of `generate_sample_data`. -/
def synthRows (seed : ℕ) : List Obs :=
  (List.range dateRangeLen).map (fun i => synthRow seed i)

/-- Modelled: Python's salted `hash` of a string (its exact value is
process-randomized and irrelevant; only that it is a fixed function of the
string within one process matters, which this model provides). -/
def pyHash (s : String) : ℕ :=
  (s.data.map Char.toNat).foldl (fun a c => (a * 31 + c) % 2147483648) 7

/-- Truthiness of an optional string argument in Python (`if farm:` is false
for both `None` and the empty string). -/
def pyTruthy : Option String → Bool
  | none => false
  | some s => !(s == "")

/-- Seed derivation of the source: `np.random.seed(42 + hash(farm) % 100 if
farm else 42)` (Python parses this as `(42 + hash(farm) % 100) if farm else
42`). -/
def seedOf (farm : Option String) : ℕ :=
  if pyTruthy farm then 42 + pyHash (farm.getD "") % 100 else 42

/-- A real backing frame: its rows and its set of column names (the source
checks `'farm' in df.columns` and the required-column list against it). -/
structure RealFrame where
  rows : List Obs
  cols : List String
deriving DecidableEq, Repr

/-- The file-system state seen by `load_real_data`: the backing CSV is
absent, present but unreadable/corrupt (`pd.read_csv` raises, caught by the
bare `except: pass`), or present and parsed into a frame. -/
inductive FileSys where
  | absent : FileSys
  | unreadable : FileSys
  | present : RealFrame → FileSys
deriving DecidableEq, Repr

/-- Required columns checked by `load_real_data`. -/
def requiredCols : List String :=
  ["date", "temperature", "humidity", "soil_moisture", "rainfall",
   "crop_yield", "field", "crop_type", "ndvi", "pest_risk",
   "disease_risk", "water_stress", "equipment_hours", "co2_emission"]

/-- Embeds `load_real_data`: returns the parsed frame only when the file
exists, parsing does not raise, and every required column is present;
otherwise `none` (the bare `except` turns a read failure into `None`). -/
def load_real_data : FileSys → Option RealFrame
  | FileSys.absent => none
  | FileSys.unreadable => none
  | FileSys.present f =>
      if ∀ c ∈ requiredCols, c ∈ f.cols then some f else none

/-- Embeds `generate_sample_data(farm, start_date, end_date, crops)`.  The
`start_date` and `end_date` parameters are accepted and never used in the
source, so they are omitted here.  Real path: filter by crop membership, then
by farm when a farm is given and the frame has a `farm` column.  Synthetic
path: seeded synthesis, then the same crop filter.  `crops = []` is the
falsy Python default (no crop filter). -/
def generate_sample_data (fs : FileSys) (farm : Option String) (crops : List String) : List Obs :=
  match load_real_data fs with
  | some frame =>
      let df := if crops.isEmpty then frame.rows
                else frame.rows.filter (fun r => decide (r.crop_type ∈ crops))
      if pyTruthy farm && decide ("farm" ∈ frame.cols) then
        df.filter (fun r => r.farm == farm.getD "")
      else df
  | none =>
      let rows := synthRows (seedOf farm)
      if crops.isEmpty then rows
      else rows.filter (fun r => decide (r.crop_type ∈ crops))

/-- Distinct elements of a list in first-seen order, skipping the ones
already in `seen`. -/
def firstSeenAux (seen : List String) : List String → List String
  | [] => []
  | a :: l => if a ∈ seen then firstSeenAux seen l else a :: firstSeenAux (a :: seen) l

/-- First-seen order of the distinct elements of a list (specification-side
definition of the order the spec claims for the aggregation). -/
def firstSeen (l : List String) : List String := firstSeenAux [] l

/-- Arithmetic mean of a list of rationals (0 on the empty list; every group
passed to it below is nonempty). -/
def meanQ (l : List ℚ) : ℚ := l.sum / l.length

/-- FieldAggregate: one row of `df.groupby('field').agg({...}).reset_index()`
holding the per-field means used by the clustering and anomaly paths (the
clustering call uses the first four numeric columns, the anomaly call all
five). -/
structure FieldAggregate where
  field : String
  temperature : ℚ
  humidity : ℚ
  soil_moisture : ℚ
  crop_yield : ℚ
  equipment_hours : ℚ
deriving DecidableEq, Repr

/-- The aggregate row for one group key. -/
def aggRow (rows : List Obs) (f : String) : FieldAggregate :=
  let g := rows.filter (fun r => r.field == f)
  { field := f
    temperature := meanQ (g.map (fun r => r.temperature))
    humidity := meanQ (g.map (fun r => r.humidity))
    soil_moisture := meanQ (g.map (fun r => r.soil_moisture))
    crop_yield := meanQ (g.map (fun r => r.crop_yield))
    equipment_hours := meanQ (g.map (fun r => r.equipment_hours)) }

/-- Lexicographic comparison of character lists by Unicode code point
(Python's `<=` on `str`, the order pandas uses to sort string group keys). -/
def charListLe : List Char → List Char → Bool
  | [], _ => true
  | _ :: _, [] => false
  | c :: cs, d :: ds =>
      if c.toNat < d.toNat then true
      else if d.toNat < c.toNat then false
      else charListLe cs ds

/-- Lexicographic string comparison by code point. -/
def strLe (a b : String) : Bool := charListLe a.data b.data

/-- Embeds the pandas `groupby('field').agg(mean).reset_index()` used by both
`clustering_data` and `detect_anomalies`: one output row per distinct field
identifier, in ascending sorted key order (pandas `groupby` defaults to
`sort=True`, which sorts the group keys lexicographically). -/
def aggregateByField (rows : List Obs) : List FieldAggregate :=
  (List.insertionSort (fun a b => strLe a b = true)
      (firstSeen (rows.map (fun r => r.field)))).map
    (fun f => aggRow rows f)

/-- Number of distinct field identifiers of a dataset. -/
def numDistinctFields (rows : List Obs) : ℕ :=
  (firstSeen (rows.map (fun r => r.field))).length

/-- Feature vector handed to the clustering call: the four means selected by
`df[['temperature', 'humidity', 'soil_moisture', 'crop_yield']]`. -/
def featuresOf (a : FieldAggregate) : List ℚ :=
  [a.temperature, a.humidity, a.soil_moisture, a.crop_yield]

/-- Column `j` of a list of points. -/
def colAt (pts : List (List ℚ)) (j : ℕ) : List ℚ :=
  pts.map (fun p => p.getD j 0)

/-- Population variance of a list of rationals (what `StandardScaler` uses). -/
def varQ (l : List ℚ) : ℚ :=
  meanQ (l.map (fun x => (x - meanQ l) ^ 2))

/-- Per-coordinate weights equivalent to `StandardScaler`: running k-means on
points standardized by `(x - mean) / sqrt(var)` assigns exactly the same
labels as running k-means on the raw points under the weighted squared
distance with weight `1 / var` per coordinate (centroid means commute with
the per-coordinate affine map, and distances scale coordinatewise), so the
irrational `sqrt` never has to be represented.  A zero-variance coordinate
gets weight 1, matching the `scale_ = 1` convention of `StandardScaler`. -/
def scaleWeights (pts : List (List ℚ)) : List ℚ :=
  (List.range 4).map (fun j =>
    let v := varQ (colAt pts j)
    if v = 0 then 1 else 1 / v)

/-- Weighted squared Euclidean distance. -/
def wDist (w p q : List ℚ) : ℚ :=
  ((List.range w.length).map (fun j => w.getD j 0 * (p.getD j 0 - q.getD j 0) ^ 2)).sum

/-- Index of the first minimum of `bv :: (values scanned so far)`. -/
def argminAux (i bi : ℕ) (bv : ℚ) : List ℚ → ℕ
  | [] => bi
  | x :: xs => if x < bv then argminAux (i + 1) i x xs else argminAux (i + 1) bi bv xs

/-- Index of the first minimum of a list (0 on the empty list). -/
def argminIdx : List ℚ → ℕ
  | [] => 0
  | x :: xs => argminAux 1 0 x xs

/-- Assignment step of Lloyd's algorithm: each point goes to its nearest
centroid (first index on ties). -/
def assignLabels (w : List ℚ) (cents pts : List (List ℚ)) : List ℕ :=
  pts.map (fun p => argminIdx (cents.map (fun c => wDist w p c)))

/-- Per-coordinate mean of a cluster. -/
def colMeansOf (members : List (List ℚ)) : List ℚ :=
  (List.range 4).map (fun j => meanQ (colAt members j))

/-- Update step of Lloyd's algorithm: each centroid becomes the mean of its
assigned points; an empty cluster keeps its centroid (the seeded relocation
`sklearn` performs for empty clusters is a delegated library detail that
never changes the number of centroids). -/
def lloydStep (w : List ℚ) (pts cents : List (List ℚ)) : List (List ℚ) :=
  let labels := assignLabels w cents pts
  (List.range cents.length).map (fun c =>
    let members := ((pts.zip labels).filter (fun pl => pl.2 == c)).map (fun pl => pl.1)
    if members.isEmpty then cents.getD c [] else colMeansOf members)

/-- Fixed-fuel iteration of Lloyd steps (`KMeans` defaults to
`max_iter=300`; early convergence stops at a fixed point, which iterating
further also preserves). -/
def lloydIter (w : List ℚ) (pts : List (List ℚ)) : ℕ → List (List ℚ) → List (List ℚ)
  | 0, cents => cents
  | n + 1, cents => lloydIter w pts n (lloydStep w pts cents)

/-- Embeds `KMeans(n_clusters=3, random_state=42).fit_predict(scaled)`.  The
seeded k-means++ initialization picks 3 of the input points; it is modelled
as the first 3 points (every property proved below holds for any choice of
3 initial centroids). -/
def kmeans_fit_predict (pts : List (List ℚ)) : List ℕ :=
  assignLabels (scaleWeights pts)
    (lloydIter (scaleWeights pts) pts 300 (pts.take 3)) pts

/-- The clustering operator: aggregate per field, standardize, k-means with
3 clusters; returns each aggregate row paired with its cluster label, as the
records of `/api/clustering-data`. -/
def clusteringOp (rows : List Obs) : List (FieldAggregate × ℕ) :=
  (aggregateByField rows).zip
    (kmeans_fit_predict ((aggregateByField rows).map featuresOf))

/-- Embeds the `/api/clustering-data` endpoint body. -/
def clustering_data (fs : FileSys) (farm : Option String) (crops : List String) :
    List (FieldAggregate × ℕ) :=
  clusteringOp (generate_sample_data fs farm crops)

/-- Modelled: the isolation-forest score of one aggregate row.  The spec
delegates the exact scoring algorithm to the library; only the contamination
threshold and the flag semantics below are contractual.  Any fixed function
of the row works for those; this one is a simple injective-in-practice
combination of the five features. -/
def scoreFn (a : FieldAggregate) : ℚ :=
  a.temperature + 2 * a.humidity + 3 * a.soil_moisture + 5 * a.crop_yield
    + 7 * a.equipment_hours

/-- Scores in ascending order (the order statistics the percentile uses). -/
def sortedScores (scores : List ℚ) : List ℚ :=
  List.insertionSort (fun a b => a ≤ b) scores

/-- Fractional index of the 20th percentile of `n` order statistics under
numpy's linear interpolation: `0.2 * (n - 1)`. -/
def pctPos (n : ℕ) : ℚ := ((n : ℚ) - 1) / 5

/-- Integer part of the percentile position. -/
def pctK (n : ℕ) : ℕ := (⌊pctPos n⌋).toNat

/-- Fractional part of the percentile position. -/
def pctFrac (n : ℕ) : ℚ := pctPos n - (pctK n : ℚ)

/-- Linear interpolation between the order statistics at `k` and `k + 1`
(when `k + 1` is out of range the fraction is 0 and the default keeps the
value at `k`). -/
def pctInterp (s : List ℚ) (k : ℕ) (frac : ℚ) : ℚ :=
  s.getD k 0 + frac * (s.getD (k + 1) (s.getD k 0) - s.getD k 0)

/-- Embeds the `offset_` of `IsolationForest(contamination=0.2)`: the 20th
percentile of the scores, with numpy's linear interpolation between order
statistics. -/
def percentile20 (scores : List ℚ) : ℚ :=
  pctInterp (sortedScores scores) (pctK (sortedScores scores).length)
    (pctFrac (sortedScores scores).length)

/-- The `decision_function` of the fitted forest: score minus offset. -/
def decisionFunction (scores : List ℚ) (s : ℚ) : ℚ :=
  s - percentile20 scores

/-- Embeds `fit_predict`: label -1 exactly when the decision function is
negative, else 1. -/
def isoPredict (scores : List ℚ) : List ℤ :=
  scores.map (fun s => if decisionFunction scores s < 0 then -1 else 1)

/-- The outlier operator on aggregates: score every row, flag the rows
predicted -1, return their field identifiers
(`df[df['anomaly'] == -1]['field'].tolist()`). -/
def detectAnomaliesOn (aggs : List FieldAggregate) : List String :=
  ((aggs.zip (isoPredict (aggs.map scoreFn))).filter
      (fun ap => ap.2 == -1)).map (fun ap => ap.1.field)

/-- Embeds `detect_anomalies()`: note the source calls
`generate_sample_data()` with no arguments, so the request's farm/crop/date
parameters never reach this computation. -/
def detect_anomalies (fs : FileSys) : List String :=
  detectAnomaliesOn (aggregateByField (generate_sample_data fs none []))

/-- Embeds `get_ai_recommendation()` (the leading status glyphs of the source
strings are omitted; only that the message is a function of the anomaly list
matters below). -/
def get_ai_recommendation (fs : FileSys) : String :=
  let anoms := detect_anomalies fs
  if anoms.isEmpty then
    "All fields operating normally. Optimal irrigation schedule."
  else
    "Anomaly detected in " ++ String.intercalate ", " anoms ++ ". Check sensors/equipment."

/-- One-step-ahead differenced forecasts of a fitted ARIMA(1,1,1): the first
differenced forecast uses the last observed difference and residual, each
later one decays by the autoregressive coefficient. -/
def forecastDiffs (phi theta dLast eLast : ℚ) : ℕ → List ℚ
  | 0 => []
  | n + 1 =>
      let d1 := phi * dLast + theta * eLast
      d1 :: forecastDiffs phi theta d1 0 n

/-- Cumulative sums from a starting level: undoes the single differencing of
the ARIMA(1,1,1) model to produce level forecasts. -/
def cumsumFrom (y0 : ℚ) : List ℚ → List ℚ
  | [] => []
  | d :: ds => (y0 + d) :: cumsumFrom (y0 + d) ds

/-- ARIMA(1,1,1) level projection of `days` steps beyond the last
observation of `ys`, given fitted parameters (the maximum-likelihood fit
itself is a delegated library computation; the projection recursion is what
determines the output length).  This is the successful path only; the
statsmodels entry point wrapping it is `arimaForecast` below. -/
def arimaForecastSteps (phi theta eLast : ℚ) (ys : List ℚ) (days : ℕ) : List ℚ :=
  cumsumFrom (ys.getLastD 0)
    (forecastDiffs phi theta (ys.getLastD 0 - (ys.dropLast).getLastD 0) eLast days)

/-- Embeds `ARIMAResults.forecast(steps=days)` including its failure mode:
statsmodels forwards to `predict(start=nobs, end=nobs + steps - 1)`, and for
`steps = 0` the end index falls before the start index, which raises a
ValueError instead of returning an empty series. -/
def arimaForecast (phi theta eLast : ℚ) (ys : List ℚ) (days : ℕ) :
    Except String (List ℚ) :=
  if days = 0 then Except.error "Prediction must have end after start"
  else Except.ok (arimaForecastSteps phi theta eLast ys days)

/-- Modelled: the fitted AR coefficient of `sm.tsa.ARIMA(df, order=(1,1,1)).fit()`
on the default series (the numeric MLE is delegated; any fixed rational
stands for it). -/
def phiHat : ℚ := 3 / 10

/-- Modelled: the fitted MA coefficient. -/
def thetaHat : ℚ := -1 / 5

/-- Modelled: the last in-sample residual of the fit. -/
def epsHat : ℚ := 4

/-- Embeds `forecast_yield(days=30)`: the yield column of the default
dataset (`generate_sample_data()` with no arguments), indexed by date,
fitted and projected `days` steps.  Fallible exactly where the source is:
the `model.forecast(steps=days)` call raises for `days = 0`. -/
def forecast_yield (fs : FileSys) (days : ℕ) : Except String (List ℚ) :=
  arimaForecast phiHat thetaHat epsHat
    ((generate_sample_data fs none []).map (fun r => r.crop_yield)) days

/-- Day-label numbers of `/api/forecast-data`: `i + 1 + (page - 1) * 30` for
`i in range(30)`. -/
def dayNums (page : ℕ) : List ℕ :=
  (List.range 30).map (fun i => i + 1 + (page - 1) * 30)

/-- Embeds the `/api/forecast-data` endpoint body: a 30-step forecast,
scaled by `1 + (page - 1) * 0.05` when `page > 1`, with the day labels
`'Day ' + str(i + 1 + (page - 1) * 30)`.  The endpoint reads only `page`
from the request.  The source calls `forecast_yield()` with its default of
30 steps, which never hits the zero-horizon failure, so the `Except` value
is unwrapped here with a dead default branch that keeps the endpoint
total. -/
def forecast_data (fs : FileSys) (page : ℕ) : List ℚ × List String :=
  let fc := (forecast_yield fs 30).toOption.getD []
  let fc := if page > 1 then fc.map (fun f => f * (1 + ((page : ℚ) - 1) * (1 / 20))) else fc
  (fc, (dayNums page).map (fun n => "Day " ++ toString n))

/-- Python's `round` ties-to-even on an integer result. -/
def roundHalfEven (q : ℚ) : ℤ :=
  if q - (⌊q⌋ : ℚ) < 1 / 2 then ⌊q⌋
  else if q - (⌊q⌋ : ℚ) > 1 / 2 then ⌊q⌋ + 1
  else if ⌊q⌋ % 2 = 0 then ⌊q⌋ else ⌊q⌋ + 1

/-- Python's `round(x, 1)`. -/
def roundTo1 (x : ℚ) : ℚ :=
  ((roundHalfEven (10 * x) : ℤ) : ℚ) / 10

/-- One value of `np.random.uniform(a, b)` given a unit draw `u ∈ [0, 1)`. -/
def uniformDraw (a b u : ℚ) : ℚ := a + u * (b - a)

/-- Embeds the `/api/sensor-data` endpoint body applied to one tuple of
generator draws: `u1, u2, u3` are the unit draws behind the three `uniform`
calls and `k` the draw behind `randint(800, 1000)` (whose value is
`800 + k % 200`). -/
def sensor_data (u1 u2 u3 : ℚ) (k : ℕ) : ℚ × ℚ × ℚ × ℕ :=
  (roundTo1 (uniformDraw 60 85 u1),
   roundTo1 (uniformDraw 18 32 u2),
   roundTo1 (uniformDraw 50 80 u3),
   800 + k % 200)

/-- KPI block of the dashboard payload (numeric values; the source formats
them into display strings). -/
def get_kpi_data (fs : FileSys) (farm : Option String) (crops : List String) : ℚ × ℚ × ℚ :=
  let df := generate_sample_data fs farm crops
  ((df.map (fun r => r.crop_yield)).sum,
   meanQ (df.map (fun r => r.temperature)),
   (df.map (fun r => r.rainfall)).sum)

/-- Embeds the `/api/dashboard-data` endpoint body: the KPI block is computed
from the filtered dataset, while `ai_message` comes from
`get_ai_recommendation()`, which takes no request parameters. -/
def dashboard_data (fs : FileSys) (farm : String) (crops : List String) :
    (ℚ × ℚ × ℚ) × String :=
  (get_kpi_data fs (some farm) crops, get_ai_recommendation fs)

/-- Embeds the `/api/anomalies` endpoint body. -/
def anomaliesEndpoint (fs : FileSys) : List String :=
  detect_anomalies fs

/-- Convenience constructor for concrete observations used in concrete
instances (all numeric attributes given, remaining attributes zero/empty). -/
def mkObs (f c : String) (t : ℚ) : Obs :=
  { date := 0, temperature := t, humidity := 0, soil_moisture := 0,
    rainfall := 0, crop_yield := 0, field := f, crop_type := c, ndvi := 0,
    pest_risk := 0, disease_risk := 0, water_stress := 0,
    equipment_hours := 0, co2_emission := 0, farm := "" }

/-- Convenience constructor for concrete aggregates used in concrete
instances. -/
def mkAggC (f : String) (t : ℚ) : FieldAggregate :=
  { field := f, temperature := t, humidity := 0, soil_moisture := 0,
    crop_yield := 0, equipment_hours := 0 }

/-! Helper lemmas. -/

theorem forecastDiffs_length : ∀ (n : ℕ) (phi theta d e : ℚ),
    (forecastDiffs phi theta d e n).length = n
  | 0, _, _, _, _ => rfl
  | n + 1, phi, theta, d, e => by
      simp [forecastDiffs, forecastDiffs_length n]

theorem cumsumFrom_length : ∀ (l : List ℚ) (y0 : ℚ),
    (cumsumFrom y0 l).length = l.length
  | [], _ => rfl
  | d :: ds, y0 => by simp [cumsumFrom, cumsumFrom_length ds]

/-- C4 counterexample: at horizon 0 the source's forecast call raises a
ValueError (the statsmodels `predict` start/end check) — it does not return
an empty sequence. -/
theorem forecast_zero_raises :
    forecast_yield FileSys.absent 0
        = Except.error "Prediction must have end after start" ∧
    forecast_yield FileSys.absent 0 ≠ Except.ok ([] : List ℚ) := by
  refine ⟨rfl, ?_⟩
  intro h
  have h2 : (Except.error "Prediction must have end after start"
      : Except String (List ℚ)) = Except.ok [] := h
  exact Except.noConfusion h2

/-- C4 (amended): for every requested horizon of at least one step the
forecasting operator succeeds and returns a series of length exactly
`days`; requesting horizon 0 does not yield an empty sequence but fails
with the statsmodels start/end ValueError.  (The projection recursion of
the fitted ARIMA(1,1,1) emits one value per step; the numeric fit itself
does not affect the length.) -/
theorem forecast_horizon_exact (fs : FileSys) (days : ℕ) (hd : 1 ≤ days) :
    (∃ l, forecast_yield fs days = Except.ok l ∧ l.length = days) ∧
    forecast_yield fs 0 = Except.error "Prediction must have end after start" := by
  constructor
  · refine ⟨arimaForecastSteps phiHat thetaHat epsHat
      ((generate_sample_data fs none []).map (fun r => r.crop_yield)) days, ?_, ?_⟩
    · unfold forecast_yield arimaForecast
      rw [if_neg (by omega)]
    · simp [arimaForecastSteps, cumsumFrom_length, forecastDiffs_length]
  · rfl

theorem forecast_horizon_exact_witness :
    (∃ l, forecast_yield FileSys.absent 30 = Except.ok l ∧ l.length = 30) ∧
    forecast_yield FileSys.absent 0
      = Except.error "Prediction must have end after start" :=
  forecast_horizon_exact FileSys.absent 30 (by norm_num)

/-- C5: for a fixed backing state, `/api/forecast-data?page=2` returns each
forecast element of `page=1` scaled by exactly 5 percent (factor 21/20), and
each day label number offset by 30 relative to `page=1`. -/
theorem forecast_page2_scaled (fs : FileSys) :
    (forecast_data fs 2).1 = ((forecast_data fs 1).1).map (fun f => f * (21 / 20)) ∧
    (forecast_data fs 2).2 = ((dayNums 1).map (fun n => n + 30)).map
      (fun n => "Day " ++ toString n) ∧
    (forecast_data fs 1).2 = (dayNums 1).map (fun n => "Day " ++ toString n) := by
  refine ⟨?_, ?_, ?_⟩
  · simp [forecast_data]
    exact fun a _ => Or.inl (by norm_num)
  · simp [forecast_data, dayNums, List.map_map]
  · simp [forecast_data]

/-- C10: the AI recommendation message of `/api/dashboard-data` and the
anomaly list of `/api/anomalies` are computed from the unfiltered default
dataset: for a fixed backing state they are identical across any two
requests, whatever the farm/crop parameters. -/
theorem analytics_ignore_request_params (fs : FileSys) (farm₁ farm₂ : String)
    (crops₁ crops₂ : List String) :
    (dashboard_data fs farm₁ crops₁).2 = (dashboard_data fs farm₂ crops₂).2 ∧
    (dashboard_data fs farm₁ crops₁).2 = get_ai_recommendation fs ∧
    anomaliesEndpoint fs = detect_anomalies fs :=
  ⟨rfl, rfl, rfl⟩

/-- C6: whenever a nonempty crop set is supplied, every row of the Dataset
returned by the provider has its crop type in that set (both on the real
path and on the synthetic path). -/
theorem crop_filter_subset (fs : FileSys) (farm : Option String) (crops : List String)
    (hc : crops ≠ []) :
    ∀ r ∈ generate_sample_data fs farm crops, r.crop_type ∈ crops := by
  intro r hr
  unfold generate_sample_data at hr
  cases crops with
  | nil => exact absurd rfl hc
  | cons c cs =>
    cases hload : load_real_data fs with
    | some frame =>
      rw [hload] at hr
      simp only [List.isEmpty_cons, Bool.false_eq_true, if_false] at hr
      split at hr
      · have h1 := (List.mem_filter.mp hr).1
        exact of_decide_eq_true (List.mem_filter.mp h1).2
      · exact of_decide_eq_true (List.mem_filter.mp hr).2
    | none =>
      rw [hload] at hr
      simp only [List.isEmpty_cons, Bool.false_eq_true, if_false] at hr
      exact of_decide_eq_true (List.mem_filter.mp hr).2

theorem crop_filter_subset_witness :
    (["Corn"] ≠ ([] : List String)) ∧
    ∀ r ∈ generate_sample_data FileSys.absent none ["Corn"], r.crop_type ∈ ["Corn"] :=
  ⟨by decide, crop_filter_subset FileSys.absent none ["Corn"] (by decide)⟩

/-- C8: a backing file missing a required column, or with unreadable/corrupt
content, makes the provider fall back to synthetic generation; the call
still returns a Dataset identical to the no-file case, and no error reaches
the caller (`load_real_data` absorbs the failure into `None`). -/
theorem bad_file_falls_back (frame : RealFrame) (farm : Option String)
    (crops : List String) (h : ¬ ∀ c ∈ requiredCols, c ∈ frame.cols) :
    load_real_data (FileSys.present frame) = none ∧
    generate_sample_data (FileSys.present frame) farm crops
      = generate_sample_data FileSys.absent farm crops ∧
    load_real_data FileSys.unreadable = none ∧
    generate_sample_data FileSys.unreadable farm crops
      = generate_sample_data FileSys.absent farm crops := by
  have h1 : load_real_data (FileSys.present frame) = none := by
    simp [load_real_data, h]
  refine ⟨h1, ?_, rfl, rfl⟩
  unfold generate_sample_data
  rw [h1]
  rfl

theorem bad_file_falls_back_witness :
    load_real_data (FileSys.present ⟨[], []⟩) = none ∧
    generate_sample_data (FileSys.present ⟨[], []⟩) none []
      = generate_sample_data FileSys.absent none [] ∧
    load_real_data FileSys.unreadable = none ∧
    generate_sample_data FileSys.unreadable none []
      = generate_sample_data FileSys.absent none [] :=
  bad_file_falls_back ⟨[], []⟩ none [] (by decide)

theorem charListLe_total : ∀ a b : List Char,
    charListLe a b = true ∨ charListLe b a = true := by
  intro a
  induction a with
  | nil => intro b; exact Or.inl rfl
  | cons c cs ih =>
    intro b
    cases b with
    | nil => exact Or.inr rfl
    | cons d ds =>
      simp only [charListLe]
      rcases Nat.lt_trichotomy c.toNat d.toNat with h | h | h
      · left; simp [h]
      · have h1 : ¬ c.toNat < d.toNat := by omega
        have h2 : ¬ d.toNat < c.toNat := by omega
        rcases ih ds with hcd | hdc
        · left; simp [h1, h2, hcd]
        · right; simp [h1, h2, hdc]
      · right; simp [h]

theorem charListLe_trans : ∀ a b c : List Char,
    charListLe a b = true → charListLe b c = true → charListLe a c = true := by
  intro a
  induction a with
  | nil => intro b c _ _; rfl
  | cons x xs ih =>
    intro b c h1 h2
    cases b with
    | nil => simp [charListLe] at h1
    | cons y ys =>
      cases c with
      | nil => simp [charListLe] at h2
      | cons z zs =>
        simp only [charListLe] at h1 h2 ⊢
        split_ifs at h1 h2 ⊢ with hxy hyx hyz hzy hxz hzx <;>
          first
          | rfl
          | omega
          | exact ih ys zs h1 h2

instance : IsTotal String (fun a b => strLe a b = true) :=
  ⟨fun a b => charListLe_total a.data b.data⟩

instance : IsTrans String (fun a b => strLe a b = true) :=
  ⟨fun a b c => charListLe_trans a.data b.data c.data⟩

theorem mem_firstSeenAux : ∀ (l seen : List String) (x : String),
    x ∈ firstSeenAux seen l ↔ (x ∈ l ∧ x ∉ seen) := by
  intro l
  induction l with
  | nil => intro seen x; simp [firstSeenAux]
  | cons a l ih =>
    intro seen x
    by_cases ha : a ∈ seen
    · simp only [firstSeenAux, if_pos ha, ih, List.mem_cons]
      constructor
      · rintro ⟨hx, hns⟩; exact ⟨Or.inr hx, hns⟩
      · rintro ⟨hx | hx, hns⟩
        · exact absurd (hx ▸ ha) hns
        · exact ⟨hx, hns⟩
    · simp only [firstSeenAux, if_neg ha, List.mem_cons, ih, List.mem_cons]
      by_cases hxa : x = a
      · subst hxa; simp [ha]
      · simp [hxa]

theorem mem_firstSeen (l : List String) (x : String) : x ∈ firstSeen l ↔ x ∈ l := by
  simp [firstSeen, mem_firstSeenAux]

theorem firstSeenAux_nodup : ∀ (l seen : List String), (firstSeenAux seen l).Nodup := by
  intro l
  induction l with
  | nil => intro seen; simp [firstSeenAux]
  | cons a l ih =>
    intro seen
    by_cases ha : a ∈ seen
    · simp only [firstSeenAux, if_pos ha]; exact ih seen
    · simp only [firstSeenAux, if_neg ha]
      refine List.nodup_cons.mpr ⟨?_, ih (a :: seen)⟩
      intro hmem
      have := ((mem_firstSeenAux _ _ _).mp hmem).2
      simp at this

theorem firstSeen_nodup (l : List String) : (firstSeen l).Nodup :=
  firstSeenAux_nodup l []

theorem aggRow_field (rows : List Obs) (f : String) : (aggRow rows f).field = f := rfl

theorem aggregateByField_keys (rows : List Obs) :
    (aggregateByField rows).map (fun a => a.field)
      = List.insertionSort (fun a b => strLe a b = true)
          (firstSeen (rows.map (fun r => r.field))) := by
  unfold aggregateByField
  rw [List.map_map]
  rw [show ((fun a : FieldAggregate => a.field) ∘ fun f => aggRow rows f) = id from rfl]
  exact List.map_id _

/-- C1 (amended): the per-field aggregation returns exactly one FieldAggregate
entry per distinct field identifier present in the input — but the entries
appear in ascending sorted order of the field identifier (pandas `groupby`
defaults to `sort=True`), not in first-seen order. -/
theorem aggregate_one_row_per_field_sorted (rows : List Obs) :
    (aggregateByField rows).length = numDistinctFields rows ∧
    ((aggregateByField rows).map (fun a => a.field)).Nodup ∧
    (∀ f, f ∈ (aggregateByField rows).map (fun a => a.field)
            ↔ f ∈ rows.map (fun r => r.field)) ∧
    ((aggregateByField rows).map (fun a => a.field)).Sorted
      (fun a b => strLe a b = true) := by
  refine ⟨?_, ?_, ?_, ?_⟩
  · simp [aggregateByField, numDistinctFields, List.length_insertionSort]
  · rw [aggregateByField_keys]
    exact ((List.perm_insertionSort _ _).nodup_iff).mpr (firstSeen_nodup _)
  · intro f
    rw [aggregateByField_keys, (List.perm_insertionSort _ _).mem_iff, mem_firstSeen]
  · rw [aggregateByField_keys]
    exact List.sorted_insertionSort _ _

/-- C1 counterexample: on a dataset whose rows present Field B before
Field A, the aggregation returns the Field A entry first (sorted order),
not the first-seen order. -/
theorem aggregate_order_counterexample :
    (aggregateByField [mkObs "Field B" "Corn" 0, mkObs "Field A" "Corn" 0]).map
        (fun a => a.field)
      ≠ firstSeen (([mkObs "Field B" "Corn" 0,
          mkObs "Field A" "Corn" 0]).map (fun r => r.field)) := by
  decide

theorem getD_mem_len (l : List String) (i : ℕ) (h : i < l.length) : l.getD i "" ∈ l := by
  induction l generalizing i with
  | nil => simp at h
  | cons a t ih =>
    cases i with
    | zero => simp [List.getD_cons_zero]
    | succ j =>
      simp only [List.getD_cons_succ]
      exact List.mem_cons_of_mem _ (ih j (by simpa using h))

theorem synthRow_field_mem (seed i : ℕ) : (synthRow seed i).field ∈ fieldNames := by
  have h4 : fieldIdx seed i < fieldNames.length := by
    simp only [fieldIdx, fieldNames, List.length_cons, List.length_nil]
    omega
  exact getD_mem_len fieldNames _ h4

theorem synthRow_crop_mem (seed i : ℕ) : (synthRow seed i).crop_type ∈ cropNames := by
  have h3 : cropIdx seed i < cropNames.length := by
    simp only [cropIdx, cropNames, List.length_cons, List.length_nil]
    omega
  exact getD_mem_len cropNames _ h3

/-- C7 counterexample: the synthesized Dataset covers 91 dates (2024-01-01
through 2024-03-31, a leap year), not a 90-day window. -/
theorem synth_window_not_90_days :
    (generate_sample_data FileSys.absent none []).length = 91 ∧
    ¬ (generate_sample_data FileSys.absent none []).length = 90 := by
  have h1 : generate_sample_data FileSys.absent none [] = synthRows (seedOf none) := rfl
  have h2 : (synthRows (seedOf none)).length = dateRangeLen := by simp [synthRows]
  have h3 : dateRangeLen = 91 := by decide
  rw [h1, h2, h3]
  exact ⟨rfl, by omega⟩

set_option maxRecDepth 4000 in
/-- C7 (amended): when no usable backing file exists, the provider
synthesizes a Dataset covering the fixed 91-day window 2024-01-01 through
2024-03-31 (91 consecutive dates, not 90); every row's field identifier is
one of the four fixed values and every crop type one of the three fixed
values, and for the default derived seed all four field identifiers and all
three crop types occur (this occurrence conjunct is checked on the modelled
draws); the Dataset is deterministic given the derived seed. -/
theorem synth_dataset_shape :
    (∀ farm, generate_sample_data FileSys.absent farm [] = synthRows (seedOf farm)) ∧
    (∀ seed, (synthRows seed).map (fun r => r.date) = dateRange2024) ∧
    dateRange2024.length = 91 ∧
    (∀ seed, ∀ r ∈ synthRows seed, r.field ∈ fieldNames ∧ r.crop_type ∈ cropNames) ∧
    (∀ f ∈ fieldNames, f ∈ (synthRows 42).map (fun r => r.field)) ∧
    (∀ c ∈ cropNames, c ∈ (synthRows 42).map (fun r => r.crop_type)) ∧
    (∀ farm₁ farm₂, seedOf farm₁ = seedOf farm₂ →
      generate_sample_data FileSys.absent farm₁ []
        = generate_sample_data FileSys.absent farm₂ []) := by
  refine ⟨fun farm => rfl, ?_, ?_, ?_, ?_, ?_, ?_⟩
  · intro seed
    simp only [synthRows, dateRange2024]
    exact List.map_congr_left (fun i _ => rfl)
  · simp only [dateRange2024, List.length_map, List.length_range]
    decide
  · intro seed r hr
    simp only [synthRows, List.mem_map, List.mem_range] at hr
    obtain ⟨i, _, hr2⟩ := hr
    rw [← hr2]
    exact ⟨synthRow_field_mem seed i, synthRow_crop_mem seed i⟩
  · intro f hf
    have h : ∃ i, i < dateRangeLen ∧ (synthRow 42 i).field = f := by
      fin_cases hf
      · exact ⟨0, by decide, by decide⟩
      · exact ⟨3, by decide, by decide⟩
      · exact ⟨1, by decide, by decide⟩
      · exact ⟨2, by decide, by decide⟩
    obtain ⟨i, hi, hfi⟩ := h
    refine List.mem_map.mpr ⟨synthRow 42 i, ?_, hfi⟩
    rw [synthRows]
    exact List.mem_map.mpr ⟨i, List.mem_range.mpr hi, rfl⟩
  · intro c hc
    have h : ∃ i, i < dateRangeLen ∧ (synthRow 42 i).crop_type = c := by
      fin_cases hc
      · exact ⟨0, by decide, by decide⟩
      · exact ⟨2, by decide, by decide⟩
      · exact ⟨5, by decide, by decide⟩
    obtain ⟨i, hi, hci⟩ := h
    refine List.mem_map.mpr ⟨synthRow 42 i, ?_, hci⟩
    rw [synthRows]
    exact List.mem_map.mpr ⟨i, List.mem_range.mpr hi, rfl⟩
  · intro farm₁ farm₂ h
    show synthRows (seedOf farm₁) = synthRows (seedOf farm₂)
    exact congrArg synthRows h

theorem synth_dataset_shape_witness :
    generate_sample_data FileSys.absent none []
      = generate_sample_data FileSys.absent (some "") [] :=
  synth_dataset_shape.2.2.2.2.2.2 none (some "") (by decide)

theorem le_roundHalfEven_of_le (q : ℚ) (m : ℤ) (h : (m : ℚ) ≤ q) :
    m ≤ roundHalfEven q := by
  have hm : m ≤ ⌊q⌋ := by
    have := Int.floor_mono h
    simpa using this
  unfold roundHalfEven
  split_ifs <;> omega

theorem roundHalfEven_le_of_le (q : ℚ) (m : ℤ) (h : q ≤ (m : ℚ)) :
    roundHalfEven q ≤ m := by
  have hm : ⌊q⌋ ≤ m := by
    have := Int.floor_mono h
    simpa using this
  have hfl : (⌊q⌋ : ℚ) ≤ q := Int.floor_le q
  unfold roundHalfEven
  split_ifs with h1 h2 h3
  · exact hm
  · have hq : (⌊q⌋ : ℚ) + 1 / 2 < q := by linarith
    have hlt : (⌊q⌋ : ℚ) < (m : ℚ) := by linarith
    have : ⌊q⌋ < m := by exact_mod_cast hlt
    omega
  · exact hm
  · have hq : (⌊q⌋ : ℚ) + 1 / 2 ≤ q := by linarith
    have hlt : (⌊q⌋ : ℚ) < (m : ℚ) := by linarith
    have : ⌊q⌋ < m := by exact_mod_cast hlt
    omega

theorem roundTo1_bounds (x : ℚ) (lo hi : ℤ) (h1 : (lo : ℚ) ≤ 10 * x)
    (h2 : 10 * x ≤ (hi : ℚ)) :
    (lo : ℚ) / 10 ≤ roundTo1 x ∧ roundTo1 x ≤ (hi : ℚ) / 10 := by
  have hl := le_roundHalfEven_of_le (10 * x) lo h1
  have hh := roundHalfEven_le_of_le (10 * x) hi h2
  have hlc : (lo : ℚ) ≤ (roundHalfEven (10 * x) : ℚ) := by exact_mod_cast hl
  have hhc : ((roundHalfEven (10 * x) : ℤ) : ℚ) ≤ (hi : ℚ) := by exact_mod_cast hh
  unfold roundTo1
  constructor <;> linarith

theorem uniformDraw_bounds (a b u : ℚ) (hab : a < b) (h0 : 0 ≤ u) (h1 : u < 1) :
    a ≤ uniformDraw a b u ∧ uniformDraw a b u < b := by
  unfold uniformDraw
  constructor
  · nlinarith
  · nlinarith

/-- C9: every sensor snapshot lies within the documented generation ranges
(soil moisture in [60, 85], temperature in [18, 32], humidity in [50, 80],
light in [800, 1000]) for any generator draws, and two successive calls can
return different values (exhibited by two concrete draw tuples). -/
theorem sensor_data_ranges :
    (∀ (u1 u2 u3 : ℚ) (k : ℕ),
      0 ≤ u1 → u1 < 1 → 0 ≤ u2 → u2 < 1 → 0 ≤ u3 → u3 < 1 →
      (60 ≤ (sensor_data u1 u2 u3 k).1 ∧ (sensor_data u1 u2 u3 k).1 ≤ 85) ∧
      (18 ≤ (sensor_data u1 u2 u3 k).2.1 ∧ (sensor_data u1 u2 u3 k).2.1 ≤ 32) ∧
      (50 ≤ (sensor_data u1 u2 u3 k).2.2.1 ∧ (sensor_data u1 u2 u3 k).2.2.1 ≤ 80) ∧
      (800 ≤ (sensor_data u1 u2 u3 k).2.2.2 ∧ (sensor_data u1 u2 u3 k).2.2.2 ≤ 1000)) ∧
    sensor_data 0 0 0 0 ≠ sensor_data (1 / 2) 0 0 0 := by
  constructor
  · intro u1 u2 u3 k h10 h11 h20 h21 h30 h31
    have hb1 := uniformDraw_bounds 60 85 u1 (by norm_num) h10 h11
    have hb2 := uniformDraw_bounds 18 32 u2 (by norm_num) h20 h21
    have hb3 := uniformDraw_bounds 50 80 u3 (by norm_num) h30 h31
    have hr1 := roundTo1_bounds (uniformDraw 60 85 u1) 600 850
      (by push_cast; linarith [hb1.1]) (by push_cast; linarith [hb1.2])
    have hr2 := roundTo1_bounds (uniformDraw 18 32 u2) 180 320
      (by push_cast; linarith [hb2.1]) (by push_cast; linarith [hb2.2])
    have hr3 := roundTo1_bounds (uniformDraw 50 80 u3) 500 800
      (by push_cast; linarith [hb3.1]) (by push_cast; linarith [hb3.2])
    have hk : k % 200 < 200 := Nat.mod_lt _ (by norm_num)
    refine ⟨⟨?_, ?_⟩, ⟨?_, ?_⟩, ⟨?_, ?_⟩, ⟨?_, ?_⟩⟩
    · have := hr1.1; push_cast at this; show (60 : ℚ) ≤ roundTo1 _; linarith
    · have := hr1.2; push_cast at this; show roundTo1 _ ≤ (85 : ℚ); linarith
    · have := hr2.1; push_cast at this; show (18 : ℚ) ≤ roundTo1 _; linarith
    · have := hr2.2; push_cast at this; show roundTo1 _ ≤ (32 : ℚ); linarith
    · have := hr3.1; push_cast at this; show (50 : ℚ) ≤ roundTo1 _; linarith
    · have := hr3.2; push_cast at this; show roundTo1 _ ≤ (80 : ℚ); linarith
    · show 800 ≤ 800 + k % 200; omega
    · show 800 + k % 200 ≤ 1000; omega
  · have e1 : (sensor_data 0 0 0 0).1 = 60 := by
      show roundTo1 (uniformDraw 60 85 0) = 60
      norm_num [uniformDraw, roundTo1, roundHalfEven]
    have e2 : (sensor_data (1 / 2) 0 0 0).1 = 145 / 2 := by
      show roundTo1 (uniformDraw 60 85 (1 / 2)) = 145 / 2
      norm_num [uniformDraw, roundTo1, roundHalfEven]
    intro h
    rw [congrArg Prod.fst h, e2] at e1
    norm_num at e1

theorem sensor_data_ranges_witness :
    (60 ≤ (sensor_data 0 0 0 0).1 ∧ (sensor_data 0 0 0 0).1 ≤ 85) ∧
    (18 ≤ (sensor_data 0 0 0 0).2.1 ∧ (sensor_data 0 0 0 0).2.1 ≤ 32) ∧
    (50 ≤ (sensor_data 0 0 0 0).2.2.1 ∧ (sensor_data 0 0 0 0).2.2.1 ≤ 80) ∧
    (800 ≤ (sensor_data 0 0 0 0).2.2.2 ∧ (sensor_data 0 0 0 0).2.2.2 ≤ 1000) :=
  sensor_data_ranges.1 0 0 0 0 (by norm_num) (by norm_num) (by norm_num)
    (by norm_num) (by norm_num) (by norm_num)

theorem argminAux_lt (xs : List ℚ) : ∀ (i bi : ℕ) (bv : ℚ) (n : ℕ),
    bi < n → i + xs.length ≤ n → argminAux i bi bv xs < n := by
  induction xs with
  | nil => intro i bi bv n h1 _; simpa [argminAux] using h1
  | cons x xs ih =>
    intro i bi bv n h1 h2
    simp only [List.length_cons] at h2
    simp only [argminAux]
    split_ifs
    · exact ih (i + 1) i x n (by omega) (by omega)
    · exact ih (i + 1) bi bv n h1 (by omega)

theorem argminIdx_lt (l : List ℚ) (h : l ≠ []) : argminIdx l < l.length := by
  cases l with
  | nil => exact absurd rfl h
  | cons x xs =>
    simp only [argminIdx, List.length_cons]
    exact argminAux_lt xs 1 0 x (xs.length + 1) (by omega) (by omega)

theorem assignLabels_length (w : List ℚ) (cents pts : List (List ℚ)) :
    (assignLabels w cents pts).length = pts.length := by
  simp [assignLabels]

theorem assignLabels_lt (w : List ℚ) (cents pts : List (List ℚ)) (hc : cents ≠ []) :
    ∀ lab ∈ assignLabels w cents pts, lab < cents.length := by
  intro lab hlab
  simp only [assignLabels, List.mem_map] at hlab
  obtain ⟨p, _, rfl⟩ := hlab
  have hne : cents.map (fun c => wDist w p c) ≠ [] := by
    simpa [List.map_eq_nil_iff] using hc
  have h := argminIdx_lt _ hne
  simpa using h

theorem lloydStep_length (w : List ℚ) (pts cents : List (List ℚ)) :
    (lloydStep w pts cents).length = cents.length := by
  simp [lloydStep]

theorem lloydIter_length (w : List ℚ) (pts : List (List ℚ)) :
    ∀ (n : ℕ) (cents : List (List ℚ)),
      (lloydIter w pts n cents).length = cents.length
  | 0, cents => rfl
  | n + 1, cents => by
      rw [lloydIter, lloydIter_length w pts n, lloydStep_length]

theorem kmeans_labels (pts : List (List ℚ)) (h3 : 3 ≤ pts.length) :
    (kmeans_fit_predict pts).length = pts.length ∧
    ∀ lab ∈ kmeans_fit_predict pts, lab < 3 := by
  have hcl : (lloydIter (scaleWeights pts) pts 300 (pts.take 3)).length = 3 := by
    rw [lloydIter_length, List.length_take]
    omega
  constructor
  · exact assignLabels_length _ _ _
  · intro lab hlab
    have hc : lloydIter (scaleWeights pts) pts 300 (pts.take 3) ≠ [] := by
      intro he
      rw [he] at hcl
      simp at hcl
    have h := assignLabels_lt _ _ _ hc lab hlab
    rwa [hcl] at h

/-- C2: for every clustering input with at least 3 distinct fields, the
clustering operator assigns each field exactly one integer cluster label
smaller than 3 (labels are nearest-centroid indices among the 3 centroids of
`KMeans(n_clusters=3)`): the output pairs each of the per-field aggregate
rows with exactly one label from 0, 1, 2. -/
theorem clustering_labels_range (rows : List Obs)
    (h3 : 3 ≤ numDistinctFields rows) :
    (clusteringOp rows).length = numDistinctFields rows ∧
    ∀ p ∈ clusteringOp rows, p.2 < 3 := by
  have hagg : (aggregateByField rows).length = numDistinctFields rows := by
    simp [aggregateByField, numDistinctFields, List.length_insertionSort]
  have hpts : ((aggregateByField rows).map featuresOf).length
      = numDistinctFields rows := by
    simpa using hagg
  have hk := kmeans_labels ((aggregateByField rows).map featuresOf)
    (by rw [hpts]; exact h3)
  constructor
  · unfold clusteringOp
    rw [List.length_zip, hk.1, hpts, hagg]
    exact min_self _
  · intro p hp
    unfold clusteringOp at hp
    obtain ⟨a, b⟩ := p
    exact hk.2 _ (List.of_mem_zip hp).2

theorem clustering_labels_range_witness :
    (clusteringOp [mkObs "Field A" "Corn" 0, mkObs "Field B" "Corn" 1,
        mkObs "Field C" "Corn" 2]).length
      = numDistinctFields [mkObs "Field A" "Corn" 0, mkObs "Field B" "Corn" 1,
        mkObs "Field C" "Corn" 2] ∧
    ∀ p ∈ clusteringOp [mkObs "Field A" "Corn" 0, mkObs "Field B" "Corn" 1,
        mkObs "Field C" "Corn" 2], p.2 < 3 :=
  clustering_labels_range _ (by decide)

theorem getD_mem_of_lt (l : List ℚ) (k : ℕ) (h : k < l.length) : l.getD k 0 ∈ l := by
  rw [List.getD_eq_getElem l 0 h]
  exact l.getElem_mem h

theorem getD_default_eq (l : List ℚ) (k : ℕ) (h : k < l.length) (d : ℚ) :
    l.getD k d = l.getD k 0 := by
  rw [List.getD_eq_getElem l d h, List.getD_eq_getElem l 0 h]

theorem sorted_getD_le (s : List ℚ) (hs : s.Sorted (fun a b => a ≤ b)) (i j : ℕ)
    (hij : i ≤ j) (hj : j < s.length) : s.getD i 0 ≤ s.getD j 0 := by
  have hi : i < s.length := lt_of_le_of_lt hij hj
  rw [List.getD_eq_getElem s 0 hi, List.getD_eq_getElem s 0 hj]
  have h := hs.rel_get_of_le (a := ⟨i, hi⟩) (b := ⟨j, hj⟩) hij
  simpa using h

theorem countP_lower (p : ℚ) : ∀ (s : List ℚ), s.Sorted (fun a b => a < b) →
    ∀ k, k < s.length → s.getD k 0 ≤ p →
      k ≤ s.countP (fun x => decide (x < p)) := by
  intro s
  induction s with
  | nil => intro _ k hk; simp at hk
  | cons x xs ih =>
    intro hs k hk hle
    cases k with
    | zero => exact Nat.zero_le _
    | succ k =>
      rcases List.sorted_cons.mp hs with ⟨hall, hs2⟩
      simp only [List.getD_cons_succ] at hle
      simp only [List.length_cons] at hk
      have hk2 : k < xs.length := by omega
      have hxmem : xs.getD k 0 ∈ xs := getD_mem_of_lt xs k hk2
      have hxp : x < p := lt_of_lt_of_le (hall _ hxmem) hle
      rw [List.countP_cons]
      have h1 := ih hs2 k hk2 hle
      simp only [decide_eq_true_eq, hxp, if_true]
      omega

theorem countP_upper (p : ℚ) : ∀ (s : List ℚ), s.Sorted (fun a b => a ≤ b) →
    ∀ m, (m < s.length → p ≤ s.getD m 0) →
      s.countP (fun x => decide (x < p)) ≤ m := by
  intro s
  induction s with
  | nil => intro _ m _; simp
  | cons x xs ih =>
    intro hs m hm
    rcases List.sorted_cons.mp hs with ⟨hall, hs2⟩
    cases m with
    | zero =>
      have hp : p ≤ x := hm (by simp)
      have hz : (x :: xs).countP (fun x => decide (x < p)) = 0 := by
        rw [List.countP_eq_zero]
        intro a ha
        simp only [decide_eq_true_eq]
        rcases List.mem_cons.mp ha with rfl | hax
        · exact not_lt.mpr hp
        · exact not_lt.mpr (le_trans hp (hall _ hax))
      omega
    | succ m =>
      rw [List.countP_cons]
      have h1 := ih hs2 m (fun hlt => by
        have h2 := hm (by simpa using Nat.succ_lt_succ hlt)
        simpa using h2)
      have h2 : (if decide (x < p) = true then 1 else 0) ≤ 1 := by
        split_ifs <;> omega
      omega

theorem pctK_lt (n : ℕ) (hn : 1 ≤ n) : pctK n < n := by
  have h0 : (0 : ℚ) ≤ ((n : ℚ) - 1) := by
    have : (1 : ℚ) ≤ (n : ℚ) := by exact_mod_cast hn
    linarith
  have h1 : pctPos n ≤ ((n : ℚ) - 1) := by
    unfold pctPos
    apply div_le_self h0
    norm_num
  have h2 : ⌊pctPos n⌋ ≤ ⌊((n : ℚ) - 1)⌋ := Int.floor_mono h1
  have h3 : ⌊((n : ℚ) - 1)⌋ = (n : ℤ) - 1 := by
    rw [show ((n : ℚ) - 1) = (((n : ℤ) - 1 : ℤ) : ℚ) by push_cast; ring]
    exact Int.floor_intCast _
  unfold pctK
  omega

theorem pctFrac_nonneg (n : ℕ) (hn : 1 ≤ n) : 0 ≤ pctFrac n := by
  have h1 : (1 : ℚ) ≤ (n : ℚ) := by exact_mod_cast hn
  have h0 : (0 : ℚ) ≤ pctPos n := by
    unfold pctPos
    apply div_nonneg <;> linarith
  have hf0 : (0 : ℤ) ≤ ⌊pctPos n⌋ := Int.floor_nonneg.mpr h0
  have hcast : ((pctK n : ℕ) : ℚ) = ((⌊pctPos n⌋ : ℤ) : ℚ) := by
    unfold pctK
    exact_mod_cast Int.toNat_of_nonneg hf0
  have hle := Int.floor_le (pctPos n)
  unfold pctFrac
  rw [hcast]
  linarith

theorem pctFrac_lt_one (n : ℕ) : pctFrac n < 1 := by
  have h1 := Int.lt_floor_add_one (pctPos n)
  have h2 : ((⌊pctPos n⌋ : ℤ) : ℚ) ≤ ((pctK n : ℕ) : ℚ) := by
    unfold pctK
    exact_mod_cast Int.self_le_toNat _
  unfold pctFrac
  linarith

theorem pctK_cast_le (n : ℕ) (hn : 1 ≤ n) : ((pctK n : ℕ) : ℚ) ≤ pctPos n := by
  have h1 : (1 : ℚ) ≤ (n : ℚ) := by exact_mod_cast hn
  have h0 : (0 : ℚ) ≤ pctPos n := by
    unfold pctPos
    apply div_nonneg <;> linarith
  have hf0 : (0 : ℤ) ≤ ⌊pctPos n⌋ := Int.floor_nonneg.mpr h0
  have hcast : ((pctK n : ℕ) : ℚ) = ((⌊pctPos n⌋ : ℤ) : ℚ) := by
    unfold pctK
    exact_mod_cast Int.toNat_of_nonneg hf0
  rw [hcast]
  exact Int.floor_le _

theorem pctPos_lt_cast (n : ℕ) : pctPos n < ((pctK n : ℕ) : ℚ) + 1 := by
  have h1 := Int.lt_floor_add_one (pctPos n)
  have h2 : ((⌊pctPos n⌋ : ℤ) : ℚ) ≤ ((pctK n : ℕ) : ℚ) := by
    unfold pctK
    exact_mod_cast Int.self_le_toNat _
  linarith

theorem percentile20_bounds (scores : List ℚ) (hne : scores ≠ []) :
    (sortedScores scores).getD (pctK (sortedScores scores).length) 0
        ≤ percentile20 scores ∧
    (pctK (sortedScores scores).length + 1 < (sortedScores scores).length →
      percentile20 scores
        ≤ (sortedScores scores).getD (pctK (sortedScores scores).length + 1) 0) := by
  have hlen : (sortedScores scores).length = scores.length :=
    List.length_insertionSort _ _
  have hn1 : 1 ≤ (sortedScores scores).length := by
    rw [hlen]
    exact List.length_pos.mpr hne
  have hsort : (sortedScores scores).Sorted (fun a b => a ≤ b) :=
    List.sorted_insertionSort _ _
  have hf0 := pctFrac_nonneg (sortedScores scores).length hn1
  have hf1 := pctFrac_lt_one (sortedScores scores).length
  have hkn := pctK_lt (sortedScores scores).length hn1
  constructor
  · show (sortedScores scores).getD (pctK (sortedScores scores).length) 0
        ≤ pctInterp (sortedScores scores) (pctK (sortedScores scores).length)
            (pctFrac (sortedScores scores).length)
    unfold pctInterp
    by_cases hk1 : pctK (sortedScores scores).length + 1 < (sortedScores scores).length
    · have hd := sorted_getD_le (sortedScores scores) hsort
        (pctK (sortedScores scores).length) (pctK (sortedScores scores).length + 1)
        (by omega) hk1
      rw [getD_default_eq (sortedScores scores) (pctK (sortedScores scores).length + 1)
        hk1 ((sortedScores scores).getD (pctK (sortedScores scores).length) 0)]
      nlinarith [mul_nonneg hf0 (sub_nonneg.mpr hd)]
    · rw [List.getD_eq_default _ _ (by omega :
        (sortedScores scores).length ≤ pctK (sortedScores scores).length + 1)]
      simp
  · intro hk1
    show pctInterp (sortedScores scores) (pctK (sortedScores scores).length)
        (pctFrac (sortedScores scores).length)
      ≤ (sortedScores scores).getD (pctK (sortedScores scores).length + 1) 0
    unfold pctInterp
    have hd := sorted_getD_le (sortedScores scores) hsort
      (pctK (sortedScores scores).length) (pctK (sortedScores scores).length + 1)
      (by omega) hk1
    rw [getD_default_eq (sortedScores scores) (pctK (sortedScores scores).length + 1)
      hk1 ((sortedScores scores).getD (pctK (sortedScores scores).length) 0)]
    nlinarith [mul_nonneg (by linarith :
        (0 : ℚ) ≤ 1 - pctFrac (sortedScores scores).length)
      (sub_nonneg.mpr hd)]

theorem countP_percentile_bounds (scores : List ℚ) (hnd : scores.Nodup)
    (hne : scores ≠ []) :
    pctK scores.length ≤ scores.countP (fun x => decide (x < percentile20 scores)) ∧
    scores.countP (fun x => decide (x < percentile20 scores))
      ≤ pctK scores.length + 1 := by
  have hlen : (sortedScores scores).length = scores.length :=
    List.length_insertionSort _ _
  have hperm : (sortedScores scores).Perm scores := List.perm_insertionSort _ _
  have hcount : scores.countP (fun x => decide (x < percentile20 scores))
      = (sortedScores scores).countP (fun x => decide (x < percentile20 scores)) :=
    (hperm.countP_eq _).symm
  have hn1 : 1 ≤ (sortedScores scores).length := by
    rw [hlen]
    exact List.length_pos.mpr hne
  have hsort_le : (sortedScores scores).Sorted (fun a b => a ≤ b) :=
    List.sorted_insertionSort _ _
  have hnodup : (sortedScores scores).Nodup := (hperm.nodup_iff).mpr hnd
  have hsort_lt : (sortedScores scores).Sorted (fun a b => a < b) :=
    hsort_le.lt_of_le hnodup
  have hb := percentile20_bounds scores hne
  have hkn := pctK_lt (sortedScores scores).length hn1
  constructor
  · rw [hcount, ← hlen]
    exact countP_lower (percentile20 scores) (sortedScores scores) hsort_lt
      (pctK (sortedScores scores).length) hkn hb.1
  · rw [hcount, ← hlen]
    exact countP_upper (percentile20 scores) (sortedScores scores) hsort_le
      (pctK (sortedScores scores).length + 1) (fun h => hb.2 h)

theorem zip_pred_filter (g : ℚ → ℤ) : ∀ (aggs : List FieldAggregate),
    (((aggs.zip ((aggs.map scoreFn).map g)).filter (fun ap => ap.2 == -1)).map
        (fun ap => ap.1.field))
      = ((aggs.filter (fun a => g (scoreFn a) == -1)).map (fun a => a.field)) := by
  intro aggs
  induction aggs with
  | nil => rfl
  | cons a t ih =>
    simp only [List.map_cons, List.zip_cons_cons, List.filter_cons]
    simp only [List.map_map] at ih
    by_cases h : (g (scoreFn a) == -1) = true
    · simp [h, ih]
    · simp [h, ih]

theorem detectAnomaliesOn_eq (aggs : List FieldAggregate) :
    detectAnomaliesOn aggs
      = (aggs.filter (fun a =>
          decide (decisionFunction (aggs.map scoreFn) (scoreFn a) < 0))).map
          (fun a => a.field) := by
  unfold detectAnomaliesOn isoPredict
  rw [zip_pred_filter
    (fun s => if decisionFunction (aggs.map scoreFn) s < 0 then (-1 : ℤ) else 1) aggs]
  congr 1
  apply List.filter_congr
  intro a _
  by_cases h : decisionFunction (aggs.map scoreFn) (scoreFn a) < 0
  · simp [h]
  · simp [h]

theorem detectAnomaliesOn_length (aggs : List FieldAggregate) :
    (detectAnomaliesOn aggs).length
      = (aggs.map scoreFn).countP
          (fun x => decide (x < percentile20 (aggs.map scoreFn))) := by
  rw [detectAnomaliesOn_eq, List.length_map, ← List.countP_eq_length_filter,
    List.countP_map]
  apply List.countP_congr
  intro a _
  simp [decisionFunction, sub_neg]

/-- C3 (amended): with the contamination fraction fixed at 0.2, for an input
of N FieldAggregate rows whose scores are pairwise distinct the outlier
operator flags c rows with N - 5 ≤ 5c ≤ N + 4 — that is, c equals
round(0.2 N) up to rounding tolerance (within one row) — and a row is
flagged anomalous exactly when its decision-function value (score minus the
20th-percentile offset) is negative, which is the prediction -1.  The
distinctness hypothesis is necessary: on tied scores strictly fewer rows
can be flagged (see the counterexample of ten identical rows, which flags
none). -/
theorem anomaly_count_and_flag (aggs : List FieldAggregate)
    (hnd : (aggs.map scoreFn).Nodup) (hne : aggs ≠ []) :
    ((aggs.length : ℤ) - 5 ≤ 5 * ((detectAnomaliesOn aggs).length : ℤ) ∧
      5 * ((detectAnomaliesOn aggs).length : ℤ) ≤ (aggs.length : ℤ) + 4) ∧
    detectAnomaliesOn aggs
      = (aggs.filter (fun a =>
          decide (decisionFunction (aggs.map scoreFn) (scoreFn a) < 0))).map
          (fun a => a.field) := by
  refine ⟨?_, detectAnomaliesOn_eq aggs⟩
  have hsne : aggs.map scoreFn ≠ [] := by
    simpa [List.map_eq_nil_iff] using hne
  have hc := countP_percentile_bounds (aggs.map scoreFn) hnd hsne
  have hlen2 : (aggs.map scoreFn).length = aggs.length := List.length_map _ _
  rw [detectAnomaliesOn_length]
  have hn1 : 1 ≤ aggs.length := List.length_pos.mpr hne
  have hk_le := pctK_cast_le aggs.length hn1
  have hk_lt := pctPos_lt_cast aggs.length
  have h5a : 5 * ((pctK aggs.length : ℕ) : ℚ) ≤ ((aggs.length : ℚ) - 1) := by
    unfold pctPos at hk_le
    rw [le_div_iff₀ (by norm_num : (0 : ℚ) < 5)] at hk_le
    linarith
  have h5b : ((aggs.length : ℚ) - 1) < 5 * (((pctK aggs.length : ℕ) : ℚ) + 1) := by
    unfold pctPos at hk_lt
    rw [div_lt_iff₀ (by norm_num : (0 : ℚ) < 5)] at hk_lt
    linarith
  have h5a' : 5 * ((pctK aggs.length : ℕ) : ℤ) ≤ (aggs.length : ℤ) - 1 := by
    exact_mod_cast h5a
  have h5b' : (aggs.length : ℤ) - 1 < 5 * (((pctK aggs.length : ℕ) : ℤ) + 1) := by
    exact_mod_cast h5b
  have hc1 := hc.1
  have hc2 := hc.2
  rw [hlen2] at hc1 hc2
  have hc1' : ((pctK aggs.length : ℕ) : ℤ)
      ≤ (((aggs.map scoreFn).countP
          (fun x => decide (x < percentile20 (aggs.map scoreFn)))) : ℤ) := by
    exact_mod_cast hc1
  have hc2' : (((aggs.map scoreFn).countP
        (fun x => decide (x < percentile20 (aggs.map scoreFn)))) : ℤ)
      ≤ ((pctK aggs.length : ℕ) : ℤ) + 1 := by
    exact_mod_cast hc2
  constructor
  · omega
  · omega

/-- Concrete sample of four aggregate rows with pairwise distinct scores. -/
def sampleAggs : List FieldAggregate :=
  [mkAggC "Field A" 1, mkAggC "Field B" 2, mkAggC "Field C" 3, mkAggC "Field D" 4]

theorem anomaly_count_and_flag_witness :
    ((sampleAggs.length : ℤ) - 5 ≤ 5 * ((detectAnomaliesOn sampleAggs).length : ℤ) ∧
      5 * ((detectAnomaliesOn sampleAggs).length : ℤ) ≤ (sampleAggs.length : ℤ) + 4) ∧
    detectAnomaliesOn sampleAggs
      = (sampleAggs.filter (fun a =>
          decide (decisionFunction (sampleAggs.map scoreFn) (scoreFn a) < 0))).map
          (fun a => a.field) :=
  anomaly_count_and_flag sampleAggs
    (by norm_num [sampleAggs, scoreFn, mkAggC])
    (by simp [sampleAggs])

theorem getD_replicate_self (s0 : ℚ) : ∀ (n k : ℕ),
    (List.replicate n s0).getD k s0 = s0 := by
  intro n
  induction n with
  | zero => intro k; cases k <;> rfl
  | succ n ih =>
    intro k
    cases k with
    | zero => rfl
    | succ k => rw [List.replicate_succ, List.getD_cons_succ, ih k]

theorem getD_replicate_lt (s0 : ℚ) : ∀ (n k : ℕ), k < n →
    (List.replicate n s0).getD k 0 = s0 := by
  intro n
  induction n with
  | zero => intro k hk; omega
  | succ n ih =>
    intro k hk
    cases k with
    | zero => rfl
    | succ k => simpa [List.replicate_succ] using ih k (by omega)

theorem sorted_le_replicate (s0 : ℚ) (n : ℕ) :
    (List.replicate n s0).Sorted (fun a b => a ≤ b) := by
  induction n with
  | zero => simp
  | succ n ih =>
    rw [List.replicate_succ]
    refine List.sorted_cons.mpr ⟨?_, ih⟩
    intro b hb
    rw [List.eq_of_mem_replicate hb]

theorem percentile20_replicate (s0 : ℚ) (n : ℕ) (hn : 1 ≤ n) :
    percentile20 (List.replicate n s0) = s0 := by
  have hss : sortedScores (List.replicate n s0) = List.replicate n s0 :=
    (sorted_le_replicate s0 n).insertionSort_eq
  unfold percentile20 pctInterp
  rw [hss, List.length_replicate]
  rw [getD_replicate_lt s0 n _ (pctK_lt n hn), getD_replicate_self]
  ring

theorem detectAnomaliesOn_tied (a0 : FieldAggregate) (n : ℕ) (hn : 1 ≤ n) :
    detectAnomaliesOn (List.replicate n a0) = [] := by
  rw [detectAnomaliesOn_eq]
  suffices h : (List.replicate n a0).filter (fun a =>
      decide (decisionFunction ((List.replicate n a0).map scoreFn) (scoreFn a) < 0))
        = [] by
    rw [h]
    rfl
  rw [List.filter_eq_nil_iff]
  intro a ha
  rw [List.eq_of_mem_replicate ha]
  simp only [decide_eq_true_eq, not_lt]
  rw [List.map_replicate]
  unfold decisionFunction
  rw [percentile20_replicate (scoreFn a0) n hn]
  simp

/-- C3 counterexample: on ten identical aggregate rows every score ties, the
20th-percentile offset equals the common score, no decision value is
negative, and zero rows are flagged — while the claim demands
round(0.2 * 10) = 2 up to rounding tolerance, so the original unrestricted
count property fails. -/
theorem anomaly_count_counterexample :
    (List.replicate 10 (mkAggC "Field A" 1)).length = 10 ∧
    (detectAnomaliesOn (List.replicate 10 (mkAggC "Field A" 1))).length = 0 ∧
    ¬ (((List.replicate 10 (mkAggC "Field A" 1)).length : ℤ) - 5
        ≤ 5 * ((detectAnomaliesOn (List.replicate 10 (mkAggC "Field A" 1))).length : ℤ)) := by
  have h0 : detectAnomaliesOn (List.replicate 10 (mkAggC "Field A" 1)) = [] :=
    detectAnomaliesOn_tied _ 10 (by norm_num)
  rw [h0]
  norm_num
